import Mathlib

/-!
Shallow embedding of `src/assets/functions/handler.py` from
`appvia/terraform-aws-graveyard`: a job that resolves a "Graveyard"
organizational unit (OU) by name, scans for suspended (closed) accounts not
already under that OU, and moves each one there with bounded retry/backoff,
aggregating per-account outcomes.

The AWS Organizations API is modelled by explicit data: the OU tree is an
inductive tree, paginated listings are lists of pages (concatenation of
pages equals iteration order), `list_parents` is a function from account id
to its parent list, and the outcome of each `move_account` call is an
oracle from (account id, attempt index) to an outcome.  Exceptions are
modelled with `Except`/sum-like result types.  Python truthiness on
`Optional[str]` (`if not ou_id:` / `if child_ou_id:`) is modelled exactly:
`None` and the empty string are falsy.
-/

namespace Graveyard

/-- An organizational unit: id, name, and child OUs (`list_organizational_units_for_parent`
returns the children; pages are already concatenated since the code iterates
all pages in order). -/
inductive OU where
  | node (id : String) (name : String) (children : List OU)

def OU.id : OU → String
  | .node i _ _ => i

def OU.name : OU → String
  | .node _ n _ => n

def OU.children : OU → List OU
  | .node _ _ c => c

@[simp] theorem OU.id_node (i n : String) (cs : List OU) : (OU.node i n cs).id = i := rfl

@[simp] theorem OU.name_node (i n : String) (cs : List OU) : (OU.node i n cs).name = n := rfl

@[simp] theorem OU.children_node (i n : String) (cs : List OU) : (OU.node i n cs).children = cs := rfl

/-- All OUs of a forest in depth-first pre-order: each node before its
children, each subtree before the next sibling.  This is the order in which
`search_ou` encounters nodes. -/
def preorderF : List OU → List OU
  | [] => []
  | OU.node i n cs :: rest => OU.node i n cs :: (preorderF cs ++ preorderF rest)

theorem preorderF_cons (ou : OU) (rest : List OU) :
    preorderF (ou :: rest) = ou :: (preorderF ou.children ++ preorderF rest) := by
  cases ou; simp [preorderF]

/-- Embeds the nested `search_ou` closure of `get_ou_id_by_name`
(handler.py lines 105-117), applied to the child list of a parent: for each
OU of each page, if its name equals the target return its id, otherwise
recursively search its children; a truthy (non-`None`, non-empty) child
result is returned, otherwise the scan continues with the next sibling;
`None` when the forest is exhausted. -/
def search_ou (ou_name : String) : List OU → Option String
  | [] => none
  | OU.node i n cs :: rest =>
    if n = ou_name then some i
    else
      match search_ou ou_name cs with
      | some child_ou_id =>
        if child_ou_id = "" then search_ou ou_name rest else some child_ou_id
      | none => search_ou ou_name rest
termination_by l => sizeOf l
decreasing_by
  all_goals simp_wf
  all_goals omega

/-- Embeds `get_ou_id_by_name` (handler.py lines 81-139): search the forest
of children of the single root; `if not ou_id:` (falsy: `None` or the empty
string) raise `ValueError` carrying the searched name, else return the id. -/
def get_ou_id_by_name (ou_name : String) (root : OU) : Except String String :=
  match search_ou ou_name root.children with
  | some ou_id =>
    if ou_id = "" then Except.error ("Could not find OU with name: " ++ ou_name)
    else Except.ok ou_id
  | none => Except.error ("Could not find OU with name: " ++ ou_name)

theorem get_ou_id_by_name_def (ou_name : String) (root : OU) :
    get_ou_id_by_name ou_name root =
      match search_ou ou_name root.children with
      | some ou_id =>
        if ou_id = "" then Except.error ("Could not find OU with name: " ++ ou_name)
        else Except.ok ou_id
      | none => Except.error ("Could not find OU with name: " ++ ou_name) := rfl

/-- Every id returned by `search_ou` is the id of an OU of the searched
forest whose name is exactly the searched name. -/
theorem search_ou_sound (ou_name : String) :
    ∀ l : List OU, ∀ s, search_ou ou_name l = some s →
      ∃ ou, ou ∈ preorderF l ∧ ou.id = s ∧ ou.name = ou_name := by
  intro l
  induction l using search_ou.induct ou_name with
  | case1 => intro s h; simp [search_ou] at h
  | case2 i cs rest =>
    intro s h
    rw [search_ou] at h
    simp at h
    exact ⟨OU.node i ou_name cs, by simp [preorderF_cons], by simp [h], by simp⟩
  | case3 i n cs rest hn hcs ih1 ih2 =>
    intro s h
    rw [search_ou] at h
    simp [hn, hcs] at h
    obtain ⟨ou, hmem, hid, hnm⟩ := ih2 s h
    exact ⟨ou, by simp [preorderF_cons]; tauto, hid, hnm⟩
  | case4 i n cs rest hn child hcs hchild ih1 =>
    intro s h
    rw [search_ou] at h
    simp [hn, hcs, hchild] at h
    obtain ⟨ou, hmem, hid, hnm⟩ := ih1 child hcs
    exact ⟨ou, by simp [preorderF_cons]; tauto, by rw [hid, h], hnm⟩
  | case5 i n cs rest hn hcs ih1 ih2 =>
    intro s h
    rw [search_ou] at h
    simp [hn, hcs] at h
    obtain ⟨ou, hmem, hid, hnm⟩ := ih2 s h
    exact ⟨ou, by simp [preorderF_cons]; tauto, hid, hnm⟩

/-- If no OU anywhere in the forest bears the searched name, `search_ou`
returns `none`. -/
theorem search_ou_none_of_no_match (ou_name : String) :
    ∀ l : List OU, (∀ ou ∈ preorderF l, ou.name ≠ ou_name) →
      search_ou ou_name l = none := by
  intro l
  induction l using search_ou.induct ou_name with
  | case1 => intro _; rw [search_ou]
  | case2 i cs rest =>
    intro h
    have := h (OU.node i ou_name cs) (by simp [preorderF_cons])
    simp at this
  | case3 i n cs rest hn hcs ih1 ih2 =>
    intro h
    rw [search_ou]
    simp only [if_neg hn, hcs, if_pos rfl]
    exact ih2 fun ou hm => h ou (by simp [preorderF_cons]; tauto)
  | case4 i n cs rest hn child hcs hchild ih1 =>
    intro h
    exfalso
    obtain ⟨ou, hmem, hid, hnm⟩ := search_ou_sound ou_name cs child hcs
    exact h ou (by simp [preorderF_cons]; tauto) hnm
  | case5 i n cs rest hn hcs ih1 ih2 =>
    intro h
    rw [search_ou]
    simp only [if_neg hn, hcs]
    exact ih2 fun ou hm => h ou (by simp [preorderF_cons]; tauto)

/-- When all ids of the forest are non-empty (so that Python truthiness of
an id agrees with `Option.isSome`), `search_ou` returns exactly the id of
the FIRST OU, in depth-first pre-order, whose name equals the searched
name. -/
theorem search_ou_eq_find? (ou_name : String) :
    ∀ l : List OU, (∀ ou ∈ preorderF l, ou.id ≠ "") →
      search_ou ou_name l =
        ((preorderF l).find? (fun ou => ou.name == ou_name)).map OU.id := by
  intro l
  induction l using search_ou.induct ou_name with
  | case1 => intro _; simp [search_ou, preorderF]
  | case2 i cs rest =>
    intro _
    rw [search_ou, preorderF_cons]
    rw [List.find?_cons_of_pos _ (by simp)]
    simp
  | case3 i n cs rest hn hcs ih1 ih2 =>
    intro hne
    exfalso
    obtain ⟨ou, hmem, hid, _⟩ := search_ou_sound ou_name cs "" hcs
    exact hne ou (by simp [preorderF_cons]; tauto) hid
  | case4 i n cs rest hn child hcs hchild ih1 =>
    intro hne
    have hcs' : ∀ ou ∈ preorderF cs, ou.id ≠ "" := by
      intro ou hm; exact hne ou (by simp [preorderF_cons]; tauto)
    have h1 := ih1 hcs'
    rw [hcs] at h1
    rw [search_ou]
    simp only [if_neg hn, hcs, if_neg hchild]
    rw [preorderF_cons]
    rw [List.find?_cons_of_neg _ (by simp [hn])]
    rw [List.find?_append]
    simp only [OU.children_node]
    cases hfind : (preorderF cs).find? (fun ou => ou.name == ou_name) with
    | none => rw [hfind] at h1; simp at h1
    | some ou => rw [hfind] at h1; simp at h1; simp [h1]
  | case5 i n cs rest hn hcs ih1 ih2 =>
    intro hne
    have hcs' : ∀ ou ∈ preorderF cs, ou.id ≠ "" := by
      intro ou hm; exact hne ou (by simp [preorderF_cons]; tauto)
    have h1 := ih1 hcs'
    rw [hcs] at h1
    have hrest : ∀ ou ∈ preorderF rest, ou.id ≠ "" := by
      intro ou hm; exact hne ou (by simp [preorderF_cons]; tauto)
    have h2 := ih2 hrest
    rw [search_ou]
    simp only [if_neg hn, hcs]
    rw [preorderF_cons]
    rw [List.find?_cons_of_neg _ (by simp [hn])]
    rw [List.find?_append]
    simp only [OU.children_node]
    cases hfind : (preorderF cs).find? (fun ou => ou.name == ou_name) with
    | none => simp [hfind]; exact h2
    | some ou => rw [hfind] at h1; simp at h1

/-! ## Resolver claim theorems -/

/-- A grouping tree whose root has an earlier child ("Sandbox") containing a
deeper OU named "Graveyard", and a later immediate child also named
"Graveyard". -/
def deepTree : OU :=
  OU.node "r-1" "Root"
    [OU.node "ou-a" "Sandbox" [OU.node "ou-x" "Graveyard" []],
     OU.node "ou-b" "Graveyard" []]

theorem deepTree_search : search_ou "Graveyard" deepTree.children = some "ou-x" := by
  simp [deepTree, search_ou]

/-- A grouping tree whose only OU bearing the searched name has the empty
string as identifier. -/
def emptyIdTree : OU :=
  OU.node "r-1" "Root" [OU.node "" "Graveyard" []]

theorem emptyIdTree_search : search_ou "Graveyard" emptyIdTree.children = some "" := by
  simp [emptyIdTree, search_ou]

/-- **C2** (counterexample): in `emptyIdTree` a grouping named "Graveyard"
exists under the root, yet `get_ou_id_by_name` fails with the "not found"
error, because the Python truthiness test `if not ou_id:` treats the found
empty-string identifier as absent.  This refutes the claim as stated over
every grouping tree. -/
theorem resolver_empty_id_cex :
    (OU.node "" "Graveyard" []) ∈ preorderF emptyIdTree.children ∧
    (OU.node "" "Graveyard" []).name = "Graveyard" ∧
    get_ou_id_by_name "Graveyard" emptyIdTree =
      Except.error "Could not find OU with name: Graveyard" := by
  refine ⟨by simp [emptyIdTree, preorderF], rfl, ?_⟩
  rw [get_ou_id_by_name_def, emptyIdTree_search]
  rfl

/-- **C2** (amended): provided every grouping identifier in the tree is a
non-empty string, `get_ou_id_by_name` either returns the identifier of a
grouping whose name exactly equals the searched name, or, when no grouping
under the root bears that name, fails with the distinguishable "not found"
error carrying the searched name; the failure is an `Except.error`, i.e.
propagated, not swallowed. -/
theorem resolver_ok_or_not_found (root : OU) (ou_name : String)
    (hne : ∀ ou ∈ preorderF root.children, ou.id ≠ "") :
    (∃ i, get_ou_id_by_name ou_name root = Except.ok i ∧
       ∃ ou, ou ∈ preorderF root.children ∧ ou.id = i ∧ ou.name = ou_name) ∨
    ((∀ ou ∈ preorderF root.children, ou.name ≠ ou_name) ∧
       get_ou_id_by_name ou_name root =
         Except.error ("Could not find OU with name: " ++ ou_name)) := by
  cases h : search_ou ou_name root.children with
  | none =>
    right
    have heq := search_ou_eq_find? ou_name root.children hne
    rw [h] at heq
    constructor
    · intro ou hm hname
      have hfind : (preorderF root.children).find? (fun ou => ou.name == ou_name) = none := by
        cases hf : (preorderF root.children).find? (fun ou => ou.name == ou_name) with
        | none => rfl
        | some x => rw [hf] at heq; simp at heq
      rw [List.find?_eq_none] at hfind
      exact hfind ou hm (by simp [hname])
    · rw [get_ou_id_by_name_def, h]
  | some s =>
    left
    obtain ⟨ou, hmem, hid, hnm⟩ := search_ou_sound ou_name root.children s h
    have hs : s ≠ "" := hid ▸ hne ou hmem
    refine ⟨s, ?_, ou, hmem, hid, hnm⟩
    rw [get_ou_id_by_name_def, h]
    simp [hs]

theorem resolver_ok_or_not_found_witness :
    (∃ i, get_ou_id_by_name "Graveyard" deepTree = Except.ok i ∧
       ∃ ou, ou ∈ preorderF deepTree.children ∧ ou.id = i ∧ ou.name = "Graveyard") ∨
    ((∀ ou ∈ preorderF deepTree.children, ou.name ≠ "Graveyard") ∧
       get_ou_id_by_name "Graveyard" deepTree =
         Except.error ("Could not find OU with name: " ++ "Graveyard")) :=
  resolver_ok_or_not_found deepTree "Graveyard" (by simp [deepTree, preorderF])

/-- **C7** (counterexample): in `deepTree` the root's LATER immediate child
"ou-b" bears the target name "Graveyard", yet the resolver returns "ou-x",
a match found deeper inside the EARLIER sibling "ou-a"'s subtree — the code
descends into each child's subtree before checking the next sibling's name,
so immediate children are not all checked before any descent. -/
theorem resolver_sibling_order_cex :
    deepTree.children =
      [OU.node "ou-a" "Sandbox" [OU.node "ou-x" "Graveyard" []],
       OU.node "ou-b" "Graveyard" []] ∧
    get_ou_id_by_name "Graveyard" deepTree = Except.ok "ou-x" := by
  refine ⟨rfl, ?_⟩
  rw [get_ou_id_by_name_def, deepTree_search]
  rfl

/-- **C7** (amended): at each visited grouping the code checks a child's
name and then immediately descends into that child's subtree before looking
at later siblings, so (when every grouping identifier is non-empty) the
resolver returns the identifier of the FIRST name match in depth-first
pre-order of the forest under the root; a match deeper inside an earlier
sibling's subtree therefore wins over a later immediate child bearing the
name. -/
theorem resolver_first_match_preorder (root : OU) (ou_name : String)
    (hne : ∀ ou ∈ preorderF root.children, ou.id ≠ "") :
    get_ou_id_by_name ou_name root =
      match (preorderF root.children).find? (fun ou => ou.name == ou_name) with
      | some ou => Except.ok ou.id
      | none => Except.error ("Could not find OU with name: " ++ ou_name) := by
  have heq := search_ou_eq_find? ou_name root.children hne
  rw [get_ou_id_by_name_def, heq]
  cases hf : (preorderF root.children).find? (fun ou => ou.name == ou_name) with
  | none => simp
  | some ou =>
    have hmem := List.mem_of_find?_eq_some hf
    have : ou.id ≠ "" := hne ou hmem
    simp [this]

theorem resolver_first_match_preorder_witness :
    get_ou_id_by_name "Graveyard" deepTree =
      match (preorderF deepTree.children).find? (fun ou => ou.name == "Graveyard") with
      | some ou => Except.ok ou.id
      | none => Except.error ("Could not find OU with name: " ++ "Graveyard") :=
  resolver_first_match_preorder deepTree "Graveyard" (by simp [deepTree, preorderF])

/-- **C10**: the resolver compares names only against child groupings listed
under a parent, starting from the children of the root; when the target
name is borne only by the root node itself, it fails with the "not found"
error instead of returning the root's identifier. -/
theorem resolver_never_matches_root (root : OU) (ou_name : String)
    (_hroot : root.name = ou_name)
    (hsub : ∀ ou ∈ preorderF root.children, ou.name ≠ ou_name) :
    get_ou_id_by_name ou_name root =
      Except.error ("Could not find OU with name: " ++ ou_name) := by
  have h := search_ou_none_of_no_match ou_name root.children hsub
  rw [get_ou_id_by_name_def, h]

theorem resolver_never_matches_root_witness :
    get_ou_id_by_name "Root" (OU.node "r-1" "Root" [OU.node "ou-a" "Sandbox" []]) =
      Except.error ("Could not find OU with name: " ++ "Root") :=
  resolver_never_matches_root (OU.node "r-1" "Root" [OU.node "ou-a" "Sandbox" []])
    "Root" rfl (by simp [preorderF])

/-! ## Accounts and the candidate scan -/

/-- One record of the paginated `list_accounts` response: the code reads
`account['Id']`, `account['Name']` and `account['Status']`. -/
structure Account where
  id : String
  name : String
  status : String
deriving Repr, DecidableEq

/-- Embeds `get_current_parent` (handler.py lines 336-379): `list_parents`
is modelled by a function from account id to its parent-id list; the code
returns the first parent if the list is non-empty and otherwise raises
`ValueError` carrying the account id. -/
def get_current_parent (parents : String → List String) (account_id : String) :
    Except String String :=
  match parents account_id with
  | parent_id :: _ => Except.ok parent_id
  | [] => Except.error ("Could not find parent for account: " ++ account_id)

/-- Embeds the body of `get_accounts_to_process` (handler.py lines 142-202)
over the concatenation of all `list_accounts` pages: for each account whose
`Status` is `SUSPENDED`, look up its current parent (an error there
propagates and aborts the scan); append the account id when the parent
differs from the Graveyard OU id, skip it otherwise; non-suspended accounts
are always skipped. -/
def scanAccounts (parents : String → List String) (graveyard_ou_id : String) :
    List Account → Except String (List String)
  | [] => Except.ok []
  | account :: rest =>
    if account.status = "SUSPENDED" then
      match get_current_parent parents account.id with
      | Except.error e => Except.error e
      | Except.ok current_parent =>
        match scanAccounts parents graveyard_ou_id rest with
        | Except.error e => Except.error e
        | Except.ok ids =>
          Except.ok (if current_parent ≠ graveyard_ou_id then account.id :: ids else ids)
    else scanAccounts parents graveyard_ou_id rest

/-- `get_accounts_to_process`: the paginator yields pages of accounts and
the nested loops visit them in concatenation order. -/
def get_accounts_to_process (pages : List (List Account))
    (parents : String → List String) (graveyard_ou_id : String) :
    Except String (List String) :=
  scanAccounts parents graveyard_ou_id pages.flatten

/-- When every suspended account of the list has a parent, the scan loop
returns exactly the ids of the suspended accounts whose first listed parent
differs from the Graveyard OU id, in encounter order. -/
theorem scanAccounts_eq_filter (parents : String → List String)
    (graveyard_ou_id : String) :
    ∀ l : List Account, (∀ a ∈ l, a.status = "SUSPENDED" → parents a.id ≠ []) →
      scanAccounts parents graveyard_ou_id l =
        Except.ok ((l.filter
          (fun a => a.status == "SUSPENDED" &&
            ((parents a.id).headD "") != graveyard_ou_id)).map Account.id) := by
  intro l
  induction l with
  | nil => intro _; simp [scanAccounts]
  | cons a rest ih =>
    intro h
    have ihr := ih fun b hb => h b (by simp [hb])
    by_cases hs : a.status = "SUSPENDED"
    · have hp : parents a.id ≠ [] := h a (by simp) hs
      cases hpar : parents a.id with
      | nil => exact absurd hpar hp
      | cons parent_id tl =>
        rw [scanAccounts]
        simp only [if_pos hs]
        simp only [get_current_parent, hpar]
        rw [ihr]
        by_cases hne : parent_id = graveyard_ou_id
        · simp [hne, hs, hpar, List.filter_cons]
        · simp [hne, hs, hpar, List.filter_cons]
    · rw [scanAccounts]
      simp only [if_neg hs]
      rw [ihr]
      simp [List.filter_cons, hs]

/-- **C1**: whenever every suspended account has a parent (so that the scan
does not abort), `get_accounts_to_process` returns exactly the identifiers
of the accounts whose status is `SUSPENDED` and whose current parent is not
the Graveyard OU id, in encounter order over the concatenation of all
pages; closed accounts already under the Graveyard OU and all non-closed
accounts are excluded, regardless of the page they appear on. -/
theorem scan_returns_exactly_candidates (pages : List (List Account))
    (parents : String → List String) (graveyard_ou_id : String)
    (h : ∀ a ∈ pages.flatten, a.status = "SUSPENDED" → parents a.id ≠ []) :
    get_accounts_to_process pages parents graveyard_ou_id =
      Except.ok ((pages.flatten.filter
        (fun a => a.status == "SUSPENDED" &&
          ((parents a.id).headD "") != graveyard_ou_id)).map Account.id) :=
  scanAccounts_eq_filter parents graveyard_ou_id pages.flatten h

/-! ## Relocation executor -/

/-- Outcome of one `move_account` call (together with its inline
`get_current_parent` lookup): success, a `botocore` `ClientError`, or any
other exception (e.g. the `ValueError` from a failed parent lookup). -/
inductive MoveOutcome where
  | ok
  | clientError (msg : String)
  | otherError (msg : String)
deriving Repr, DecidableEq

def MoveOutcome.isOk : MoveOutcome → Bool
  | .ok => true
  | _ => false

/-- `max_retries = 3` (handler.py line 242). -/
def max_retries : Nat := 3

/-- `base_delay = 1` second (handler.py line 243). -/
def base_delay : Nat := 1

/-- What the per-account processing did: on `processed`/`failed`, `calls`
counts the `move_account` calls made and `sleeps` lists the backoff delays
slept, in order; `skipped` is the (unreachable for `max_retries = 3`) case
of the attempt loop ending without a break or exception, in which the
account lands in neither list. -/
inductive PerAccount where
  | processed (calls : Nat) (sleeps : List Nat)
  | failed (calls : Nat) (sleeps : List Nat)
  | skipped
deriving Repr, DecidableEq

/-- Embeds the `for attempt in range(max_retries)` loop (handler.py lines
245-288) for one account, with `outcome i` the result of the move call of
attempt `i`: success appends the account to `processed_accounts` and breaks;
a `ClientError` on the last attempt re-raises (caught by the per-account
handler, which appends to `failed_accounts`); an earlier `ClientError`
sleeps `base_delay * 2 ^ attempt` and retries; any other exception
propagates out of the loop at once (only `ClientError` is caught by the
retry `except`). -/
def moveLoop (outcome : Nat → MoveOutcome) :
    List Nat → Nat → List Nat → PerAccount
  | [], _, _ => PerAccount.skipped
  | attempt :: restAttempts, calls, sleeps =>
    match outcome attempt with
    | MoveOutcome.ok => PerAccount.processed (calls + 1) sleeps
    | MoveOutcome.clientError _ =>
      if attempt = max_retries - 1 then PerAccount.failed (calls + 1) sleeps
      else moveLoop outcome restAttempts (calls + 1)
        (sleeps ++ [base_delay * 2 ^ attempt])
    | MoveOutcome.otherError _ => PerAccount.failed (calls + 1) sleeps

/-- Per-account processing: the attempt loop over `range(max_retries)`. -/
def processAccount (outcome : Nat → MoveOutcome) : PerAccount :=
  moveLoop outcome (List.range max_retries) 0 []

/-- Embeds the per-candidate loop of `lambda_handler` (handler.py lines
235-300): each candidate is appended to `processed_accounts` or
`failed_accounts` according to its attempt loop, in scan order; the
`except ... continue` means no per-candidate failure escapes the loop. -/
def runAccounts (oracle : String → Nat → MoveOutcome) :
    List String → List String × List String
  | [] => ([], [])
  | account_id :: rest =>
    let r := runAccounts oracle rest
    match processAccount (oracle account_id) with
    | PerAccount.processed _ _ => (account_id :: r.1, r.2)
    | PerAccount.failed _ _ => (r.1, account_id :: r.2)
    | PerAccount.skipped => r

/-! ## Entry point -/

/-- Body of the handler's return value: either the short-circuit message
string or the structured aggregate. -/
inductive Body where
  | message (s : String)
  | aggregate (processed_accounts failed_accounts : List String)
      (total_processed total_failed : Nat)
deriving Repr, DecidableEq

structure LambdaResult where
  statusCode : Nat
  body : Body
deriving Repr, DecidableEq

/-- The state of the external world an invocation runs against:
the `GRAVEYARD_OU_NAME` environment variable (absent means `os.environ[...]`
raises `KeyError`), the organization tree under the single root, the
paginated `list_accounts` response, the `list_parents` map, and the outcome
of each (account, attempt) move call. -/
structure Env where
  graveyard_ou_name : Option String
  root : OU
  accountPages : List (List Account)
  parents : String → List String
  oracle : String → Nat → MoveOutcome

/-- Embeds `lambda_handler` (handler.py lines 205-333): resolve the
Graveyard OU by name, scan for candidates, short-circuit on an empty
candidate list, otherwise run the per-candidate loop and return the
aggregate; the surrounding `try`/`except`/`raise` re-raises every upstream
error unchanged. -/
def lambda_handler (env : Env) : Except String LambdaResult :=
  match env.graveyard_ou_name with
  | none => Except.error "KeyError: GRAVEYARD_OU_NAME"
  | some ou_name =>
    match get_ou_id_by_name ou_name env.root with
    | Except.error e => Except.error e
    | Except.ok graveyard_ou_id =>
      match get_accounts_to_process env.accountPages env.parents graveyard_ou_id with
      | Except.error e => Except.error e
      | Except.ok accounts_to_process =>
        if accounts_to_process.isEmpty then
          Except.ok ⟨200, Body.message "No closed accounts found to process"⟩
        else
          let r := runAccounts env.oracle accounts_to_process
          Except.ok ⟨200, Body.aggregate r.1 r.2 r.1.length r.2.length⟩

theorem lambda_handler_def (env : Env) :
    lambda_handler env =
      match env.graveyard_ou_name with
      | none => Except.error "KeyError: GRAVEYARD_OU_NAME"
      | some ou_name =>
        match get_ou_id_by_name ou_name env.root with
        | Except.error e => Except.error e
        | Except.ok graveyard_ou_id =>
          match get_accounts_to_process env.accountPages env.parents graveyard_ou_id with
          | Except.error e => Except.error e
          | Except.ok accounts_to_process =>
            if accounts_to_process.isEmpty then
              Except.ok ⟨200, Body.message "No closed accounts found to process"⟩
            else
              let r := runAccounts env.oracle accounts_to_process
              Except.ok ⟨200, Body.aggregate r.1 r.2 r.1.length r.2.length⟩ := rfl

theorem scan_returns_exactly_candidates_witness :
    get_accounts_to_process
        [[⟨"111", "active", "ACTIVE"⟩, ⟨"222", "closed-a", "SUSPENDED"⟩],
         [⟨"333", "closed-b", "SUSPENDED"⟩]]
        (fun aid => if aid = "333" then ["ou-grave"] else ["ou-a"]) "ou-grave" =
      Except.ok ["222"] := by
  have h := scan_returns_exactly_candidates
    [[⟨"111", "active", "ACTIVE"⟩, ⟨"222", "closed-a", "SUSPENDED"⟩],
     [⟨"333", "closed-b", "SUSPENDED"⟩]]
    (fun aid => if aid = "333" then ["ou-grave"] else ["ou-a"]) "ou-grave"
    (by intro a ha hs; fin_cases ha <;> simp)
  rw [h]
  rfl

theorem range_max_retries : List.range max_retries = [0, 1, 2] := rfl

theorem processAccount_processed_of_first_ok (outcome : Nat → MoveOutcome)
    (h : outcome 0 = MoveOutcome.ok) :
    processAccount outcome = PerAccount.processed 1 [] := by
  simp [processAccount, range_max_retries, moveLoop, h]

theorem processAccount_failed_of_never_ok (outcome : Nat → MoveOutcome)
    (h : ∀ i, i < max_retries → (outcome i).isOk = false) :
    ∃ c s, processAccount outcome = PerAccount.failed c s := by
  have h0 := h 0 (by norm_num [max_retries])
  have h1 := h 1 (by norm_num [max_retries])
  have h2 := h 2 (by norm_num [max_retries])
  cases ho0 : outcome 0 with
  | ok => rw [ho0] at h0; simp [MoveOutcome.isOk] at h0
  | otherError m0 =>
    exact ⟨1, [], by simp [processAccount, range_max_retries, moveLoop, ho0]⟩
  | clientError m0 =>
    cases ho1 : outcome 1 with
    | ok => rw [ho1] at h1; simp [MoveOutcome.isOk] at h1
    | otherError m1 =>
      exact ⟨2, [1], by
        simp [processAccount, range_max_retries, moveLoop, ho0, ho1,
          max_retries, base_delay]⟩
    | clientError m1 =>
      cases ho2 : outcome 2 with
      | ok => rw [ho2] at h2; simp [MoveOutcome.isOk] at h2
      | otherError m2 =>
        exact ⟨3, [1, 2], by
          simp [processAccount, range_max_retries, moveLoop, ho0, ho1, ho2,
            max_retries, base_delay]⟩
      | clientError m2 =>
        exact ⟨3, [1, 2], by
          simp [processAccount, range_max_retries, moveLoop, ho0, ho1, ho2,
            max_retries, base_delay]⟩

/-- **C3**: when every move attempt for a candidate fails with a
`ClientError` (the directory service's request-layer error), the executor
makes exactly 3 move calls, sleeps exactly 1 second before the second
attempt and 2 seconds before the third (`base_delay * 2 ^ attempt`), sleeps
nothing after the final attempt, records the account as failed, and the run
continues with the remaining candidates. -/
theorem executor_exhausts_with_backoff (oracle : String → Nat → MoveOutcome)
    (account_id : String) (rest : List String)
    (h : ∀ i, i < max_retries → ∃ m, oracle account_id i = MoveOutcome.clientError m) :
    processAccount (oracle account_id) = PerAccount.failed 3 [1, 2] ∧
    runAccounts oracle (account_id :: rest) =
      ((runAccounts oracle rest).1, account_id :: (runAccounts oracle rest).2) := by
  obtain ⟨m0, h0⟩ := h 0 (by norm_num [max_retries])
  obtain ⟨m1, h1⟩ := h 1 (by norm_num [max_retries])
  obtain ⟨m2, h2⟩ := h 2 (by norm_num [max_retries])
  have hp : processAccount (oracle account_id) = PerAccount.failed 3 [1, 2] := by
    simp [processAccount, range_max_retries, moveLoop, h0, h1, h2,
      max_retries, base_delay]
  exact ⟨hp, by simp [runAccounts, hp]⟩

theorem executor_exhausts_with_backoff_witness :
    processAccount ((fun _ _ => MoveOutcome.clientError "Throttling") "111") =
      PerAccount.failed 3 [1, 2] ∧
    runAccounts (fun _ _ => MoveOutcome.clientError "Throttling") ["111"] =
      ((runAccounts (fun _ _ => MoveOutcome.clientError "Throttling") []).1,
        "111" :: (runAccounts (fun _ _ => MoveOutcome.clientError "Throttling") []).2) :=
  executor_exhausts_with_backoff (fun _ _ => MoveOutcome.clientError "Throttling")
    "111" [] (fun _ _ => ⟨"Throttling", rfl⟩)

/-- **C8**: for an attempt sequence whose first success is attempt `i`
(zero-based, so position `i + 1`) after `i` `ClientError` failures, the
executor records the account in the processed list and makes exactly
`i + 1` move calls, with no further attempt after the success. -/
theorem executor_success_position (oracle : String → Nat → MoveOutcome)
    (account_id : String) (rest : List String) (i : Nat)
    (hi : i < max_retries)
    (hprev : ∀ j, j < i → ∃ m, oracle account_id j = MoveOutcome.clientError m)
    (hok : oracle account_id i = MoveOutcome.ok) :
    processAccount (oracle account_id) =
      PerAccount.processed (i + 1) ((List.range i).map fun j => base_delay * 2 ^ j) ∧
    runAccounts oracle (account_id :: rest) =
      (account_id :: (runAccounts oracle rest).1, (runAccounts oracle rest).2) := by
  have hi3 : i < 3 := by simpa [max_retries] using hi
  have hp : processAccount (oracle account_id) =
      PerAccount.processed (i + 1) ((List.range i).map fun j => base_delay * 2 ^ j) := by
    interval_cases i
    · simp [processAccount, range_max_retries, moveLoop, hok]
    · obtain ⟨m0, h0⟩ := hprev 0 (by omega)
      simp [processAccount, range_max_retries, moveLoop, h0, hok,
        max_retries, base_delay]
      rfl
    · obtain ⟨m0, h0⟩ := hprev 0 (by omega)
      obtain ⟨m1, h1⟩ := hprev 1 (by omega)
      simp [processAccount, range_max_retries, moveLoop, h0, h1, hok,
        max_retries, base_delay]
      rfl
  exact ⟨hp, by simp [runAccounts, hp]⟩
/-- **C6** (counterexample): a non-`ClientError` exception during a move
attempt is handled differently from a `ClientError`: the former produces
the per-account failure record after a single attempt with no backoff,
while the latter is retried with backoff until all 3 attempts are
exhausted.  This refutes the claim that both error kinds take the same
backoff-and-retry path. -/
theorem executor_error_classification_cex :
    processAccount (fun _ => MoveOutcome.otherError "ValueError") =
      PerAccount.failed 1 [] ∧
    processAccount (fun _ => MoveOutcome.clientError "Throttling") =
      PerAccount.failed 3 [1, 2] := ⟨rfl, rfl⟩

/-- **C6** (amended): only errors of the directory service's request layer
(`ClientError`) trigger the backoff-and-retry path; any other error raised
during a move attempt escapes the attempt loop at once (the loop's `except`
clause catches only `ClientError`) and immediately produces the per-account
failure record, after `i + 1` move calls and only the backoff delays of the
preceding `ClientError` attempts. -/
theorem executor_non_client_error_fails_fast (outcome : Nat → MoveOutcome)
    (i : Nat) (m : String)
    (hi : i < max_retries)
    (hprev : ∀ j, j < i → ∃ s, outcome j = MoveOutcome.clientError s)
    (herr : outcome i = MoveOutcome.otherError m) :
    processAccount outcome =
      PerAccount.failed (i + 1) ((List.range i).map fun j => base_delay * 2 ^ j) := by
  have hi3 : i < 3 := by simpa [max_retries] using hi
  interval_cases i
  · simp [processAccount, range_max_retries, moveLoop, herr]
  · obtain ⟨m0, h0⟩ := hprev 0 (by omega)
    simp [processAccount, range_max_retries, moveLoop, h0, herr,
      max_retries, base_delay]
    rfl
  · obtain ⟨m0, h0⟩ := hprev 0 (by omega)
    obtain ⟨m1, h1⟩ := hprev 1 (by omega)
    simp [processAccount, range_max_retries, moveLoop, h0, h1, herr,
      max_retries, base_delay]
    rfl

theorem executor_non_client_error_fails_fast_witness :
    processAccount (fun _ => MoveOutcome.otherError "ValueError") =
      PerAccount.failed (0 + 1) ((List.range 0).map fun j => base_delay * 2 ^ j) :=
  executor_non_client_error_fails_fast (fun _ => MoveOutcome.otherError "ValueError")
    0 "ValueError" (by norm_num [max_retries]) (fun j hj => absurd hj (by omega)) rfl

/-- A run over candidates whose first move attempt succeeds processes all
of them in order and fails none. -/
theorem runAccounts_all_ok (oracle : String → Nat → MoveOutcome) :
    ∀ l : List String, (∀ a ∈ l, oracle a 0 = MoveOutcome.ok) →
      runAccounts oracle l = (l, []) := by
  intro l
  induction l with
  | nil => intro _; simp [runAccounts]
  | cons a rest ih =>
    intro h
    rw [runAccounts]
    rw [processAccount_processed_of_first_ok (oracle a) (h a (by simp))]
    simp [ih fun b hb => h b (by simp [hb])]

/-- **C4**: failure isolation.  For candidates `pre ++ k :: suf` where
every move attempt for `k` fails and every other candidate's attempts
succeed, the aggregate holds exactly the `pre ++ suf` candidates (order
preserved) as processed and exactly `[k]` as failed, regardless of the
position of `k`; the per-candidate loop is total, so no per-candidate
failure propagates out of the run. -/
theorem run_failure_isolation (oracle : String → Nat → MoveOutcome)
    (pre suf : List String) (k : String)
    (hk : ∀ i, i < max_retries → (oracle k i).isOk = false)
    (hok : ∀ a ∈ pre ++ suf, ∀ i, oracle a i = MoveOutcome.ok) :
    runAccounts oracle (pre ++ k :: suf) = (pre ++ suf, [k]) ∧
    (pre ++ suf).length + 1 = (pre ++ k :: suf).length := by
  refine ⟨?_, by simp; omega⟩
  obtain ⟨c, s, hfail⟩ := processAccount_failed_of_never_ok (oracle k) hk
  induction pre with
  | nil =>
    rw [List.nil_append, runAccounts, hfail]
    rw [runAccounts_all_ok oracle suf (fun a ha => hok a (by simpa using ha) 0)]
    simp
  | cons p pre' ih =>
    rw [List.cons_append, runAccounts]
    rw [processAccount_processed_of_first_ok (oracle p) (hok p (by simp) 0)]
    have := ih (fun a ha i => hok a (by simp at ha ⊢; tauto) i)
    simp [this]

theorem run_failure_isolation_witness :
    runAccounts
        (fun a _ => if a = "222" then MoveOutcome.clientError "Denied" else MoveOutcome.ok)
        (["111"] ++ "222" :: ["333"]) = (["111"] ++ ["333"], ["222"]) ∧
    (["111"] ++ ["333"]).length + 1 = (["111"] ++ "222" :: ["333"]).length :=
  run_failure_isolation
    (fun a _ => if a = "222" then MoveOutcome.clientError "Denied" else MoveOutcome.ok)
    ["111"] ["333"] "222"
    (fun _ _ => by simp [MoveOutcome.isOk])
    (fun a ha _ => by fin_cases ha <;> simp)
/-- **C5**: whenever the Graveyard OU name is configured, resolution
succeeds and the scan succeeds, `lambda_handler` returns a result with
`statusCode` 200 whose body is the short-circuit message string when there
are no candidates and the structured aggregate otherwise (no hypothesis is
made on move outcomes: even all-failed runs return 200); conversely a
missing configuration, a resolution failure or a scan failure propagates
as an error and no result is produced. -/
theorem handler_always_200_or_propagates (env : Env) :
    (∀ ou_name graveyard_ou_id accounts_to_process,
        env.graveyard_ou_name = some ou_name →
        get_ou_id_by_name ou_name env.root = Except.ok graveyard_ou_id →
        get_accounts_to_process env.accountPages env.parents graveyard_ou_id =
          Except.ok accounts_to_process →
        ∃ r, lambda_handler env = Except.ok r ∧ r.statusCode = 200 ∧
          ((accounts_to_process = [] ∧
              r.body = Body.message "No closed accounts found to process") ∨
           (accounts_to_process ≠ [] ∧
              ∃ p f, r.body = Body.aggregate p f p.length f.length))) ∧
    (env.graveyard_ou_name = none →
        lambda_handler env = Except.error "KeyError: GRAVEYARD_OU_NAME") ∧
    (∀ ou_name e, env.graveyard_ou_name = some ou_name →
        get_ou_id_by_name ou_name env.root = Except.error e →
        lambda_handler env = Except.error e) ∧
    (∀ ou_name graveyard_ou_id e, env.graveyard_ou_name = some ou_name →
        get_ou_id_by_name ou_name env.root = Except.ok graveyard_ou_id →
        get_accounts_to_process env.accountPages env.parents graveyard_ou_id =
          Except.error e →
        lambda_handler env = Except.error e) := by
  refine ⟨?_, ?_, ?_, ?_⟩
  · intro ou_name gid accts hn hres hscan
    rw [lambda_handler_def]
    simp only [hn, hres, hscan]
    by_cases hemp : accts.isEmpty = true
    · rw [if_pos hemp]
      exact ⟨_, rfl, rfl, Or.inl ⟨List.isEmpty_iff.mp hemp, rfl⟩⟩
    · rw [if_neg hemp]
      exact ⟨_, rfl, rfl, Or.inr ⟨fun hnil => hemp (by simp [hnil]), _, _, rfl⟩⟩
  · intro hn
    rw [lambda_handler_def]
    simp only [hn]
  · intro ou_name e hn hres
    rw [lambda_handler_def]
    simp only [hn, hres]
  · intro ou_name gid e hn hres hscan
    rw [lambda_handler_def]
    simp only [hn, hres, hscan]

/-- An environment with no accounts at all: resolution succeeds and the
scan returns no candidates. -/
def emptyEnv : Env :=
  { graveyard_ou_name := some "Graveyard"
    root := deepTree
    accountPages := []
    parents := fun _ => []
    oracle := fun _ _ => MoveOutcome.ok }

theorem deepTree_resolve : get_ou_id_by_name "Graveyard" deepTree = Except.ok "ou-x" := by
  rw [get_ou_id_by_name_def, deepTree_search]
  rfl

theorem handler_always_200_or_propagates_witness :
    ∃ r, lambda_handler emptyEnv = Except.ok r ∧ r.statusCode = 200 ∧
      ((([] : List String) = [] ∧
          r.body = Body.message "No closed accounts found to process") ∨
       (([] : List String) ≠ [] ∧
          ∃ p f, r.body = Body.aggregate p f p.length f.length)) :=
  (handler_always_200_or_propagates emptyEnv).1 "Graveyard" "ou-x" []
    rfl deepTree_resolve rfl
theorem runAccounts_mem_fst (oracle : String → Nat → MoveOutcome) :
    ∀ l x, x ∈ (runAccounts oracle l).1 →
      x ∈ l ∧ ∃ c s, processAccount (oracle x) = PerAccount.processed c s := by
  intro l
  induction l with
  | nil => intro x hx; simp [runAccounts] at hx
  | cons a rest ih =>
    intro x hx
    simp only [runAccounts] at hx
    cases hpa : processAccount (oracle a) with
    | processed c s =>
      rw [hpa] at hx
      simp at hx
      rcases hx with rfl | hx
      · exact ⟨by simp, c, s, hpa⟩
      · obtain ⟨hmem, hps⟩ := ih x hx
        exact ⟨by simp [hmem], hps⟩
    | failed c s =>
      rw [hpa] at hx
      simp at hx
      obtain ⟨hmem, hps⟩ := ih x hx
      exact ⟨by simp [hmem], hps⟩
    | skipped =>
      rw [hpa] at hx
      obtain ⟨hmem, hps⟩ := ih x hx
      exact ⟨by simp [hmem], hps⟩

theorem runAccounts_mem_snd (oracle : String → Nat → MoveOutcome) :
    ∀ l x, x ∈ (runAccounts oracle l).2 →
      x ∈ l ∧ ∃ c s, processAccount (oracle x) = PerAccount.failed c s := by
  intro l
  induction l with
  | nil => intro x hx; simp [runAccounts] at hx
  | cons a rest ih =>
    intro x hx
    simp only [runAccounts] at hx
    cases hpa : processAccount (oracle a) with
    | processed c s =>
      rw [hpa] at hx
      simp at hx
      obtain ⟨hmem, hps⟩ := ih x hx
      exact ⟨by simp [hmem], hps⟩
    | failed c s =>
      rw [hpa] at hx
      simp at hx
      rcases hx with rfl | hx
      · exact ⟨by simp, c, s, hpa⟩
      · obtain ⟨hmem, hps⟩ := ih x hx
        exact ⟨by simp [hmem], hps⟩
    | skipped =>
      rw [hpa] at hx
      obtain ⟨hmem, hps⟩ := ih x hx
      exact ⟨by simp [hmem], hps⟩

theorem scanAccounts_mem (parents : String → List String) (gid : String) :
    ∀ l ids, scanAccounts parents gid l = Except.ok ids →
      ∀ x ∈ ids, ∃ a, a ∈ l ∧ a.id = x ∧ a.status = "SUSPENDED" := by
  intro l
  induction l with
  | nil =>
    intro ids h x hx
    simp [scanAccounts] at h
    subst h
    simp at hx
  | cons a rest ih =>
    intro ids h x hx
    rw [scanAccounts] at h
    by_cases hs : a.status = "SUSPENDED"
    · rw [if_pos hs] at h
      cases hgp : get_current_parent parents a.id with
      | error e => rw [hgp] at h; simp at h
      | ok cp =>
        rw [hgp] at h
        cases hsc : scanAccounts parents gid rest with
        | error e => rw [hsc] at h; simp at h
        | ok ids2 =>
          rw [hsc] at h
          simp at h
          subst h
          by_cases hcg : cp = gid
          · rw [if_pos hcg] at hx
            obtain ⟨b, hb, hbid, hbs⟩ := ih ids2 hsc x hx
            exact ⟨b, by simp [hb], hbid, hbs⟩
          · rw [if_neg hcg] at hx
            simp at hx
            rcases hx with rfl | hx
            · exact ⟨a, by simp, rfl, hs⟩
            · obtain ⟨b, hb, hbid, hbs⟩ := ih ids2 hsc x hx
              exact ⟨b, by simp [hb], hbid, hbs⟩
    · rw [if_neg hs] at h
      obtain ⟨b, hb, hbid, hbs⟩ := ih ids h x hx
      exact ⟨b, by simp [hb], hbid, hbs⟩

/-- **C9**: in every aggregate Run Result, the reported totals equal the
lengths of the respective lists, no account id is in both the processed and
the failed list, and an id that never appears with the closed (SUSPENDED)
status among the listed accounts is in neither list. -/
theorem run_result_invariants (env : Env) (r : LambdaResult)
    (p f : List String) (tp tf : Nat)
    (hr : lambda_handler env = Except.ok r)
    (hb : r.body = Body.aggregate p f tp tf) :
    tp = p.length ∧ tf = f.length ∧ (∀ x, ¬(x ∈ p ∧ x ∈ f)) ∧
    (∀ x, (∀ a ∈ env.accountPages.flatten, a.id = x → a.status ≠ "SUSPENDED") →
      x ∉ p ∧ x ∉ f) := by
  rw [lambda_handler_def] at hr
  cases hn : env.graveyard_ou_name with
  | none =>
    simp only [hn] at hr
    exact absurd hr (by simp)
  | some ou_name =>
    simp only [hn] at hr
    cases hres : get_ou_id_by_name ou_name env.root with
    | error e =>
      simp only [hres] at hr
      exact absurd hr (by simp)
    | ok gid =>
      simp only [hres] at hr
      cases hscan : get_accounts_to_process env.accountPages env.parents gid with
      | error e =>
        simp only [hscan] at hr
        exact absurd hr (by simp)
      | ok accts =>
        simp only [hscan] at hr
        by_cases hemp : accts.isEmpty = true
        · rw [if_pos hemp] at hr
          have hrr : r = ⟨200, Body.message "No closed accounts found to process"⟩ := by
            injection hr with h
            exact h.symm
          rw [hrr] at hb
          simp at hb
        · rw [if_neg hemp] at hr
          have hrr : r = ⟨200, Body.aggregate
              (runAccounts env.oracle accts).1 (runAccounts env.oracle accts).2
              (runAccounts env.oracle accts).1.length
              (runAccounts env.oracle accts).2.length⟩ := by
            injection hr with h
            exact h.symm
          rw [hrr] at hb
          simp only [LambdaResult.mk.injEq, Body.aggregate.injEq] at hb
          obtain ⟨hp, hf, htp, htf⟩ := hb
          subst hp
          subst hf
          subst htp
          subst htf
          refine ⟨rfl, rfl, ?_, ?_⟩
          · intro x ⟨hx1, hx2⟩
            obtain ⟨_, c1, s1, hps1⟩ := runAccounts_mem_fst env.oracle accts x hx1
            obtain ⟨_, c2, s2, hps2⟩ := runAccounts_mem_snd env.oracle accts x hx2
            rw [hps1] at hps2
            simp at hps2
          · intro x hnos
            have hmem : x ∈ accts → False := by
              intro hx
              simp only [get_accounts_to_process] at hscan
              obtain ⟨a, ha, haid, hastat⟩ :=
                scanAccounts_mem env.parents gid env.accountPages.flatten accts hscan x hx
              exact hnos a ha haid hastat
            constructor
            · intro hx
              exact hmem (runAccounts_mem_fst env.oracle accts x hx).1
            · intro hx
              exact hmem (runAccounts_mem_snd env.oracle accts x hx).1
/-- An oracle whose move call fails with a `ClientError` on attempt 0 and
succeeds from attempt 1 on. -/
def retryOracle : String → Nat → MoveOutcome := fun _ j =>
  if j = 0 then MoveOutcome.clientError "Throttling" else MoveOutcome.ok

theorem executor_success_position_witness :
    processAccount (retryOracle "111") =
      PerAccount.processed (1 + 1) ((List.range 1).map fun j => base_delay * 2 ^ j) ∧
    runAccounts retryOracle ["111", "333"] =
      ("111" :: (runAccounts retryOracle ["333"]).1,
        (runAccounts retryOracle ["333"]).2) :=
  executor_success_position retryOracle "111" ["333"] 1 (by norm_num [max_retries])
    (fun j hj => ⟨"Throttling", by
      have hj0 : j = 0 := by omega
      rw [hj0]
      rfl⟩)
    rfl

/-- A tree whose root has a single child named "Graveyard". -/
def simpleRoot : OU := OU.node "r-1" "Root" [OU.node "ou-g" "Graveyard" []]

theorem simpleRoot_search : search_ou "Graveyard" simpleRoot.children = some "ou-g" := by
  simp [simpleRoot, search_ou]

theorem simpleRoot_resolve : get_ou_id_by_name "Graveyard" simpleRoot = Except.ok "ou-g" := by
  rw [get_ou_id_by_name_def, simpleRoot_search]
  rfl

/-- An environment with one suspended account not yet under the Graveyard
OU, whose relocation succeeds. -/
def oneAccountEnv : Env :=
  { graveyard_ou_name := some "Graveyard"
    root := simpleRoot
    accountPages := [[⟨"222", "closed-a", "SUSPENDED"⟩]]
    parents := fun _ => ["ou-a"]
    oracle := fun _ _ => MoveOutcome.ok }

theorem oneAccountEnv_run :
    lambda_handler oneAccountEnv =
      Except.ok ⟨200, Body.aggregate ["222"] [] 1 0⟩ := by
  rw [lambda_handler_def]
  simp only [oneAccountEnv]
  rw [simpleRoot_resolve]
  rfl

theorem run_result_invariants_witness :
    1 = (["222"] : List String).length ∧ 0 = ([] : List String).length ∧
    (∀ x, ¬(x ∈ (["222"] : List String) ∧ x ∈ ([] : List String))) ∧
    (∀ x, (∀ a ∈ oneAccountEnv.accountPages.flatten, a.id = x → a.status ≠ "SUSPENDED") →
      x ∉ (["222"] : List String) ∧ x ∉ ([] : List String)) :=
  run_result_invariants oneAccountEnv ⟨200, Body.aggregate ["222"] [] 1 0⟩
    ["222"] [] 1 0 oneAccountEnv_run rfl

end Graveyard
